import Mathlib

/-!
Verification development for the AMfe assembly-and-constraint layer
(`amfe/mechanical_system.py` and `amfe/mesh.py`).

The mechanical-system façade is embedded shallowly: a Python instance becomes
an explicit state record, a method becomes a function from the state (and its
arguments) to a result together with the successor state, and a method that can
raise becomes an `Except`-valued function.  Matrices and vectors are rational
matrices of fixed dimension:
  `N`  = number of unconstrained DOFs (`mesh_class.no_of_dofs`),
  `n`  = number of constrained (free) DOFs,
  `k`  = reduced dimension (number of basis columns),
  `nn` = number of nodes (rows of the nodal stress/strain arrays).
-/

set_option autoImplicit false

namespace AMfe

/-- Python exception kinds observable in the embedded fragment. -/
inductive PyErr where
  | keyError
  | valueError
  | typeError
  | attributeError
  | indexError
  deriving DecidableEq, Repr

/-! ## Dirichlet constraint operators

Modelled from the spec: the `DirichletBoundary` class (`amfe/boundary.py`) is
not part of the sources; §3 of the spec defines its contract through the
B-matrix: `constrain_matrix(A) = Bᵗ A B`, `constrain_vec(v) = Bᵗ v`,
`unconstrain_vec(u) = B u` (applied column-wise to a basis matrix). -/

/-- Modelled from the spec: `unconstrain_vec(u) = B u`. -/
def unconstrain_vec {N n : ℕ} (B : Matrix (Fin N) (Fin n) ℚ) (u : Fin n → ℚ) :
    Fin N → ℚ :=
  B.mulVec u

/-- Modelled from the spec: `constrain_vec(v) = Bᵗ v`. -/
def constrain_vec {N n : ℕ} (B : Matrix (Fin N) (Fin n) ℚ) (v : Fin N → ℚ) :
    Fin n → ℚ :=
  B.transpose.mulVec v

/-- Modelled from the spec: `constrain_matrix(A) = Bᵗ A B`. -/
def constrain_matrix {N n : ℕ} (B : Matrix (Fin N) (Fin n) ℚ)
    (A : Matrix (Fin N) (Fin N) ℚ) : Matrix (Fin n) (Fin n) ℚ :=
  B.transpose * A * B

/-- Modelled from the spec: `unconstrain_vec` applied to a basis matrix column
by column, as done for `V_unconstr` in `ReducedSystem.__init__` and
`reduce_mechanical_system`. -/
def unconstrain_mat {N n k : ℕ} (B : Matrix (Fin N) (Fin n) ℚ)
    (V : Matrix (Fin n) (Fin k) ℚ) : Matrix (Fin N) (Fin k) ℚ :=
  B * V

/-! ## The assembler interface

Modelled from the spec: the `Assembly` class (`amfe/assembly.py`) is not part
of the sources.  §4.2 fixes its interface (`assembleMass(u|null, t)`,
`assembleStiffnessAndForce(u, t)`, the stress/strain-recovery variant, the
Neumann variant and the element-level reduced variant); the claims treat the
assembled values as opaque data, so the assembler is an arbitrary record of
functions over which all theorems are universally quantified. -/

structure Assembly (N nn : ℕ) where
  assemble_m : Option (Fin N → ℚ) → ℚ → Matrix (Fin N) (Fin N) ℚ
  assemble_k_and_f : (Fin N → ℚ) → ℚ → Matrix (Fin N) (Fin N) ℚ × (Fin N → ℚ)
  assemble_k_and_f_neumann :
    (Fin N → ℚ) → ℚ → Matrix (Fin N) (Fin N) ℚ × (Fin N → ℚ)
  assemble_k_f_S_E :
    (Fin N → ℚ) → ℚ →
      Matrix (Fin N) (Fin N) ℚ × (Fin N → ℚ) ×
      Matrix (Fin nn) (Fin 6) ℚ × Matrix (Fin nn) (Fin 6) ℚ
  assemble_k_and_f_red : ∀ {k : ℕ}, Matrix (Fin N) (Fin k) ℚ →
    (Fin k → ℚ) → ℚ → Matrix (Fin k) (Fin k) ℚ × (Fin k → ℚ)

/-! ## `MechanicalSystem` (full-order façade) -/

/-- State of a `MechanicalSystem` instance: the mutable attributes touched by
the modelled methods (`mechanical_system.py`, lines 70-103). -/
structure MechState (N n nn : ℕ) where
  stress_recovery : Bool
  T_output : List ℚ
  u_output : List (Fin N → ℚ)
  S_output : List (Matrix (Fin nn) (Fin 6) ℚ)
  E_output : List (Matrix (Fin nn) (Fin 6) ℚ)
  stress : Option (Matrix (Fin nn) (Fin 6) ℚ)
  strain : Option (Matrix (Fin nn) (Fin 6) ℚ)
  M_constr : Option (Matrix (Fin n) (Fin n) ℚ)
  D_constr : Option (Matrix (Fin n) (Fin n) ℚ)
  deriving DecidableEq

variable {N n k nn : ℕ}

/-- `MechanicalSystem.M` (lines 325-350): returns the cache unless it is
`None` or `force_update` is passed, in which case it assembles
`constrain_matrix(assemble_m(unconstrain_vec(u), t))` and stores it. -/
def MechState.M (s : MechState N n nn) (asm : Assembly N nn)
    (B : Matrix (Fin N) (Fin n) ℚ) (u : Option (Fin n → ℚ)) (t : ℚ)
    (force_update : Bool) : Matrix (Fin n) (Fin n) ℚ × MechState N n nn :=
  match s.M_constr, force_update with
  | some C, false => (C, s)
  | _, _ =>
      let u_unconstr := u.map (unconstrain_vec B)
      let M_unconstr := asm.assemble_m u_unconstr t
      let Mc := constrain_matrix B M_unconstr
      (Mc, { s with M_constr := some Mc })

/-- `MechanicalSystem.K` (lines 352-375): `u` defaults to the zero vector;
returns `constrain_matrix(assemble_k_and_f(unconstrain_vec(u), t)[0])`.
Reads and writes no instance state. -/
def MechState.K (_s : MechState N n nn) (asm : Assembly N nn)
    (B : Matrix (Fin N) (Fin n) ℚ) (u : Option (Fin n → ℚ)) (t : ℚ) :
    Matrix (Fin n) (Fin n) ℚ :=
  let u := u.getD 0
  constrain_matrix B (asm.assemble_k_and_f (unconstrain_vec B u) t).1

/-- `MechanicalSystem.D` (lines 377-402): when `D_constr` is `None` it returns
`self.K()*0` without storing anything; once `D_constr` is set it is returned
on every path (the `force_update` branch also just returns the cache). -/
def MechState.D (s : MechState N n nn) (asm : Assembly N nn)
    (B : Matrix (Fin N) (Fin n) ℚ) (_u : Option (Fin n → ℚ)) (_t : ℚ)
    (force_update : Bool) : Matrix (Fin n) (Fin n) ℚ × MechState N n nn :=
  if s.D_constr.isNone || force_update then
    match s.D_constr with
    | none => ((0 : ℚ) • MechState.K s asm B none 0, s)
    | some C => (C, s)
  else
    (s.D_constr.getD 0, s)

/-- `MechanicalSystem.f_int` (lines 404-410). -/
def MechState.f_int (_s : MechState N n nn) (asm : Assembly N nn)
    (B : Matrix (Fin N) (Fin n) ℚ) (u : Fin n → ℚ) (t : ℚ) : Fin n → ℚ :=
  constrain_vec B (asm.assemble_k_and_f (unconstrain_vec B u) t).2

/-- `MechanicalSystem._f_ext_unconstr` (lines 412-421). -/
def f_ext_unconstr (asm : Assembly N nn) (B : Matrix (Fin N) (Fin n) ℚ)
    (u : Fin n → ℚ) (t : ℚ) : Fin N → ℚ :=
  (asm.assemble_k_and_f_neumann (unconstrain_vec B u) t).2

/-- Body of `MechanicalSystem.f_ext` (lines 423-430), shared with the reduced
variant; `du` is accepted and ignored exactly as in the source. -/
def full_f_ext {δ : Type} (asm : Assembly N nn) (B : Matrix (Fin N) (Fin n) ℚ)
    (u : Option (Fin n → ℚ)) (_du : δ) (t : ℚ) : Fin n → ℚ :=
  let u := u.getD 0
  constrain_vec B (f_ext_unconstr asm B u t)

/-- `MechanicalSystem.f_ext` as a method. -/
def MechState.f_ext {δ : Type} (_s : MechState N n nn) (asm : Assembly N nn)
    (B : Matrix (Fin N) (Fin n) ℚ) (u : Option (Fin n → ℚ)) (du : δ) (t : ℚ) :
    Fin n → ℚ :=
  full_f_ext asm B u du t

/-- `MechanicalSystem.K_and_f` (lines 432-447): with `stress_recovery` the
stress/strain attributes are overwritten from `assemble_k_f_S_E`. -/
def MechState.K_and_f (s : MechState N n nn) (asm : Assembly N nn)
    (B : Matrix (Fin N) (Fin n) ℚ) (u : Option (Fin n → ℚ)) (t : ℚ) :
    (Matrix (Fin n) (Fin n) ℚ × (Fin n → ℚ)) × MechState N n nn :=
  let u := u.getD 0
  if s.stress_recovery then
    let r := asm.assemble_k_f_S_E (unconstrain_vec B u) t
    ((constrain_matrix B r.1, constrain_vec B r.2.1),
      { s with stress := some r.2.2.1, strain := some r.2.2.2 })
  else
    let r := asm.assemble_k_and_f (unconstrain_vec B u) t
    ((constrain_matrix B r.1, constrain_vec B r.2), s)

/-- `MechanicalSystem.apply_rayleigh_damping` (lines 449-463):
`D_constr := alpha*self.M() + beta*self.K()` (both called with defaults). -/
def MechState.apply_rayleigh_damping (s : MechState N n nn)
    (asm : Assembly N nn) (B : Matrix (Fin N) (Fin n) ℚ) (α β : ℚ) :
    MechState N n nn :=
  let MM := s.M asm B none 0 false
  let Kv := MM.2.K asm B none 0
  { MM.2 with D_constr := some (α • MM.1 + β • Kv) }

/-- `MechanicalSystem.write_timestep` (lines 465-480).  The appends to
`T_output`/`u_output` happen unconditionally; with `stress_recovery` set, a
missing stress AND strain are replaced by zero arrays before appending.  If
exactly one of the two is `None`, `self.stress.copy()` raises
(`AttributeError` on `None`) after the first two appends: the returned flag is
`false` on that path and the `S_output`/`E_output` appends do not happen. -/
def MechState.write_timestep (s : MechState N n nn)
    (B : Matrix (Fin N) (Fin n) ℚ) (t : ℚ) (u : Fin n → ℚ) :
    MechState N n nn × Bool :=
  let s1 := { s with
    T_output := s.T_output ++ [t]
    u_output := s.u_output ++ [unconstrain_vec B u] }
  if s1.stress_recovery then
    match s1.stress, s1.strain with
    | none, none =>
        ({ s1 with stress := some 0, strain := some 0,
                   S_output := s1.S_output ++ [0],
                   E_output := s1.E_output ++ [0] }, true)
    | some S, some E =>
        ({ s1 with S_output := s1.S_output ++ [S],
                   E_output := s1.E_output ++ [E] }, true)
    | _, _ => (s1, false)
  else
    (s1, true)

/-- State effect of `MechanicalSystem.export_paraview` (lines 267-323): an
empty recorded history gets a synthetic timestep `t = 0` with a zero
displacement of length `no_of_dofs` (and zero `(no_of_nodes, 6)` stress and
strain arrays under `stress_recovery`); the actual file writing is an external
collaborator and has no further effect on the instance. -/
def MechState.export_paraview (s : MechState N n nn) : MechState N n nn :=
  if s.T_output.length = 0 then
    let s1 := { s with
      T_output := s.T_output ++ [0]
      u_output := s.u_output ++ [0] }
    if s.stress_recovery then
      { s1 with S_output := s1.S_output ++ [0], E_output := s1.E_output ++ [0] }
    else s1
  else s

/-! ## `ReducedSystem` (Galerkin-projected façade)

`ReducedSystem` inherits every `MechanicalSystem` attribute and adds the basis
`V`, its unconstrained extension `V_unconstr`, the reduced-coordinate output
list and the assembly-type selector; after reduction the cached mass/damping
matrices live in the reduced (`k`-dimensional) space. -/

structure RedState (N n k nn : ℕ) where
  stress_recovery : Bool
  T_output : List ℚ
  u_output : List (Fin N → ℚ)
  S_output : List (Matrix (Fin nn) (Fin 6) ℚ)
  E_output : List (Matrix (Fin nn) (Fin 6) ℚ)
  stress : Option (Matrix (Fin nn) (Fin 6) ℚ)
  strain : Option (Matrix (Fin nn) (Fin 6) ℚ)
  M_constr : Option (Matrix (Fin k) (Fin k) ℚ)
  D_constr : Option (Matrix (Fin k) (Fin k) ℚ)
  V : Matrix (Fin n) (Fin k) ℚ
  V_unconstr : Matrix (Fin N) (Fin k) ℚ
  assembly_type : String
  u_red_output : List (Fin k → ℚ)
  deriving DecidableEq

/-- `ReducedSystem.K_and_f` (lines 687-702): dispatch on `assembly_type`;
an unknown selector raises `ValueError`. -/
def RedState.K_and_f (s : RedState N n k nn) (asm : Assembly N nn)
    (u : Option (Fin k → ℚ)) (t : ℚ) :
    Except PyErr (Matrix (Fin k) (Fin k) ℚ × (Fin k → ℚ)) :=
  let u := u.getD 0
  if s.assembly_type = "direct" then
    .ok (asm.assemble_k_and_f_red s.V_unconstr u t)
  else if s.assembly_type = "indirect" then
    let r := asm.assemble_k_and_f (s.V_unconstr.mulVec u) t
    .ok (s.V_unconstr.transpose * r.1 * s.V_unconstr,
         s.V_unconstr.transpose.mulVec r.2)
  else
    .error .valueError

/-- `ReducedSystem.K` (lines 704-719). -/
def RedState.K (s : RedState N n k nn) (asm : Assembly N nn)
    (u : Option (Fin k → ℚ)) (t : ℚ) :
    Except PyErr (Matrix (Fin k) (Fin k) ℚ) :=
  let u := u.getD 0
  if s.assembly_type = "direct" then
    .ok (asm.assemble_k_and_f_red s.V_unconstr u t).1
  else if s.assembly_type = "indirect" then
    let r := asm.assemble_k_and_f (s.V_unconstr.mulVec u) t
    .ok (s.V_unconstr.transpose * r.1 * s.V_unconstr)
  else
    .error .valueError

/-- `ReducedSystem.f_int` (lines 724-738): `u` has no default here. -/
def RedState.f_int (s : RedState N n k nn) (asm : Assembly N nn)
    (u : Fin k → ℚ) (t : ℚ) : Except PyErr (Fin k → ℚ) :=
  if s.assembly_type = "direct" then
    .ok (asm.assemble_k_and_f_red s.V_unconstr u t).2
  else if s.assembly_type = "indirect" then
    .ok (s.V_unconstr.transpose.mulVec
          (asm.assemble_k_and_f (s.V_unconstr.mulVec u) t).2)
  else
    .error .valueError

/-- `ReducedSystem.f_ext` (lines 721-722):
`V.T @ MechanicalSystem.f_ext(self, V @ u, du, t)`. -/
def RedState.f_ext {δ : Type} (s : RedState N n k nn) (asm : Assembly N nn)
    (B : Matrix (Fin N) (Fin n) ℚ) (u : Fin k → ℚ) (du : δ) (t : ℚ) :
    Fin k → ℚ :=
  s.V.transpose.mulVec (full_f_ext asm B (some (s.V.mulVec u)) du t)

/-- `ReducedSystem.M` (lines 746-755): when the cache is `None` or a forced
update is requested, it projects the full mass matrix,
`V.T @ MechanicalSystem.M(self, V @ u, t, force_update=True) @ V`, and stores
it.  The inner call always reassembles (it is forced); its transient write of
the full-size matrix to `M_constr` is immediately overwritten by the
projected matrix, so only the final value is modelled. -/
def RedState.M (s : RedState N n k nn) (asm : Assembly N nn)
    (B : Matrix (Fin N) (Fin n) ℚ) (u : Option (Fin k → ℚ)) (t : ℚ)
    (force_update : Bool) : Matrix (Fin k) (Fin k) ℚ × RedState N n k nn :=
  match s.M_constr, force_update with
  | some C, false => (C, s)
  | _, _ =>
      let u_full := u.map (fun q => s.V.mulVec q)
      let M_full := constrain_matrix B (asm.assemble_m (u_full.map (unconstrain_vec B)) t)
      let Mc := s.V.transpose * M_full * s.V
      (Mc, { s with M_constr := some Mc })

/-- `ReducedSystem.D` (lines 740-744): when `D_constr` is `None` the cache is
set to `self.V.T @ MechanicalSystem.K(self)*0 @ self.V` (a zero matrix, by
`*`/`@` left associativity); a cached value is returned unchanged whether or
not `force_update` is passed. -/
def RedState.D (s : RedState N n k nn) (asm : Assembly N nn)
    (B : Matrix (Fin N) (Fin n) ℚ) (_u : Option (Fin k → ℚ)) (_t : ℚ)
    (_force_update : Bool) : Matrix (Fin k) (Fin k) ℚ × RedState N n k nn :=
  match s.D_constr with
  | none =>
      let fullK := constrain_matrix B (asm.assemble_k_and_f (unconstrain_vec B 0) 0).1
      let Dc := ((0 : ℚ) • (s.V.transpose * fullK)) * s.V
      (Dc, { s with D_constr := some Dc })
  | some C => (C, s)

/-- `ReducedSystem.write_timestep` (lines 757-759): the inherited
`write_timestep` runs on `(t, V @ u)` and then `u` is appended to
`u_red_output`.  If the inherited call raises (mixed stress/strain state, see
`MechState.write_timestep`), the reduced append does not happen. -/
def RedState.write_timestep (s : RedState N n k nn)
    (B : Matrix (Fin N) (Fin n) ℚ) (t : ℚ) (u : Fin k → ℚ) :
    RedState N n k nn × Bool :=
  let s1 := { s with
    T_output := s.T_output ++ [t]
    u_output := s.u_output ++ [unconstrain_vec B (s.V.mulVec u)] }
  if s1.stress_recovery then
    match s1.stress, s1.strain with
    | none, none =>
        ({ s1 with stress := some 0, strain := some 0,
                   S_output := s1.S_output ++ [0],
                   E_output := s1.E_output ++ [0],
                   u_red_output := s1.u_red_output ++ [u] }, true)
    | some S, some E =>
        ({ s1 with S_output := s1.S_output ++ [S],
                   E_output := s1.E_output ++ [E],
                   u_red_output := s1.u_red_output ++ [u] }, true)
    | _, _ => (s1, false)
  else
    ({ s1 with u_red_output := s1.u_red_output ++ [u] }, true)

/-- Value-level content of `reduce_mechanical_system` (lines 943-957), i.e.
the fields of the resulting `ReducedSystem` as a function of the source
system; whether the result is a fresh deep copy or the same heap object is
modelled separately by the heap operations below.  Per the source: `V` is a
copy of the argument, `V_unconstr = unconstrain_vec(V)`, `u_red_output = []`,
`M_constr` is cleared and recomputed by `M(force_update=True)`, and a cached
full damping matrix is projected to `V.T @ D @ V` (otherwise `D_constr` keeps
the copied value `None`). -/
def reduce_transform (asm : Assembly N nn) (B : Matrix (Fin N) (Fin n) ℚ)
    (s : MechState N n nn) (V : Matrix (Fin n) (Fin k) ℚ)
    (assembly : String) : RedState N n k nn :=
  let r0 : RedState N n k nn :=
    { stress_recovery := s.stress_recovery
      T_output := s.T_output
      u_output := s.u_output
      S_output := s.S_output
      E_output := s.E_output
      stress := s.stress
      strain := s.strain
      V := V
      V_unconstr := unconstrain_mat B V
      u_red_output := []
      M_constr := none
      D_constr := none
      assembly_type := assembly }
  let r1 := (r0.M asm B none 0 true).2
  { r1 with D_constr := s.D_constr.map (fun D0 => V.transpose * D0 * V) }

/-! ## State-space variants

`MechanicalSystemStateSpace` extends `MechanicalSystem` with the regularity
matrix `R_constr`, the cached descriptor matrix `E_constr` (a `2n × 2n` block
matrix) and the state trajectory `x_output`; `ReducedSystemStateSpace` adds
the right/left bases `V`, `W` (each `2n × k`) and `x_red_output`.  Only the
fields touched by the modelled conversion functions are carried. -/

structure SSState (N n nn : ℕ) where
  mech : MechState N n nn
  R_constr : Matrix (Fin n) (Fin n) ℚ
  E_constr : Option (Matrix (Fin (n + n)) (Fin (n + n)) ℚ)
  x_output : List (Fin (n + n) → ℚ)
  deriving DecidableEq

/-- `ReducedSystemStateSpace` attributes.  `W` and `x_red_output` are `Option`
because `reduce_mechanical_system_state_space` may raise between assigning `V`
and assigning `W`, leaving an object on which those attributes do not exist
yet; `E_constr` may still hold the unprojected full-size matrix at that point,
hence the dimension-tagged payload. -/
structure RedSSState (N n k nn : ℕ) where
  mech : MechState N n nn
  R_constr : Matrix (Fin n) (Fin n) ℚ
  E_constr : Option ((m : ℕ) × Matrix (Fin m) (Fin m) ℚ)
  x_output : List (Fin (n + n) → ℚ)
  V : Matrix (Fin (n + n)) (Fin k) ℚ
  W : Option (Matrix (Fin (n + n)) (Fin k) ℚ)
  x_red_output : Option (List (Fin k → ℚ))
  deriving DecidableEq

/-! ## Heap model of the conversion functions

The module-level functions `reduce_mechanical_system`,
`convert_mechanical_system_to_state_space` and
`reduce_mechanical_system_state_space` either mutate the passed-in instance
(`overwrite=True`, reassigning its `__class__`) or build a deep copy.  To make
object identity observable, instances live in a store (`List PObj`) addressed
by position; each conversion returns the index of the produced system together
with the successor store.  Each function is modelled on its documented input
class (`mechanical_system : instance of MechanicalSystem`, respectively
`mechanical_system_state_space`); on any other store entry the store is
returned unchanged. -/

inductive PObj (N n k nn : ℕ) where
  | full (s : MechState N n nn)
  | red (s : RedState N n k nn)
  | ss (s : SSState N n nn)
  | redss (s : RedSSState N n k nn)

/-- The runtime class tag of a stored object; only conversion can change it,
and no conversion ever produces the `Full` variant. -/
def PObj.isFull : PObj N n k nn → Bool
  | .full _ => true
  | _ => false

/-- `reduce_mechanical_system` (lines 918-957) over the store. -/
def reduce_mechanical_system (asm : Assembly N nn)
    (B : Matrix (Fin N) (Fin n) ℚ) (store : List (PObj N n k nn)) (ref : ℕ)
    (V : Matrix (Fin n) (Fin k) ℚ) (overwrite : Bool) (assembly : String) :
    ℕ × List (PObj N n k nn) :=
  match store.get? ref with
  | some (.full s) =>
      let robj : PObj N n k nn := .red (reduce_transform asm B s V assembly)
      if overwrite then (ref, store.set ref robj)
      else (store.length, store ++ [robj])
  | _ => (ref, store)

/-- `convert_mechanical_system_to_state_space` (lines 960-976) over the
store: `x_output = []`, `R_constr` defaults to `K()`, and
`E(force_update=True)` assembles `bmat [[R_constr, None], [None, M_constr]]`
(computing and caching the full mass matrix first when it is absent). -/
def convert_mechanical_system_to_state_space (asm : Assembly N nn)
    (B : Matrix (Fin N) (Fin n) ℚ) (store : List (PObj N n k nn)) (ref : ℕ)
    (regular_matrix : Option (Matrix (Fin n) (Fin n) ℚ)) (overwrite : Bool) :
    ℕ × List (PObj N n k nn) :=
  match store.get? ref with
  | some (.full s) =>
      let R := match regular_matrix with
        | none => s.K asm B none 0
        | some R0 => R0
      let MM := s.M asm B none 0 false
      let Ec : Matrix (Fin (n + n)) (Fin (n + n)) ℚ :=
        (Matrix.fromBlocks R 0 0 MM.1).submatrix
          finSumFinEquiv.symm finSumFinEquiv.symm
      let obj : PObj N n k nn :=
        .ss { mech := MM.2, R_constr := R, E_constr := some Ec, x_output := [] }
      if overwrite then (ref, store.set ref obj)
      else (store.length, store ++ [obj])
  | _ => (ref, store)

/-- `reduce_mechanical_system_state_space` (lines 979-995) over the store.
The source assigns the class tag and `V = right_basis.copy()` first; with a
non-`None` left basis it then calls `left_basis.sopy()` — a method that does
not exist on an ndarray — so an `AttributeError` is raised before `W`,
`x_red_output` or `E_constr` are touched (with `overwrite=True` the earlier
mutations stick; otherwise the half-converted deep copy is discarded).  With
`left_basis=None`, `W` becomes a copy of `right_basis`. -/
def reduce_mechanical_system_state_space (store : List (PObj N n k nn))
    (ref : ℕ) (right_basis : Matrix (Fin (n + n)) (Fin k) ℚ)
    (left_basis : Option (Matrix (Fin (n + n)) (Fin k) ℚ))
    (overwrite : Bool) : Except PyErr ℕ × List (PObj N n k nn) :=
  match store.get? ref with
  | some (.ss s) =>
      let base : RedSSState N n k nn :=
        { mech := s.mech, R_constr := s.R_constr
          E_constr := s.E_constr.map (fun E0 => ⟨n + n, E0⟩)
          x_output := s.x_output, V := right_basis
          W := none, x_red_output := none }
      match left_basis with
      | some _ =>
          (.error .attributeError,
           if overwrite then store.set ref (.redss base) else store)
      | none =>
          let done : RedSSState N n k nn :=
            { base with W := some right_basis, x_red_output := some [],
                        E_constr := none }
          if overwrite then (.ok ref, store.set ref (.redss done))
          else (.ok store.length, store ++ [.redss done])
  | _ => (.error .attributeError, store)

/-! ## Mesh model (`amfe/mesh.py`)

Node and element ids are naturals; the `groups` dict is an association list
from names to a pair of optional id lists (`get_nodeidxs_by_groups` checks
both entries against `None`, so either may be absent); `el_df` is the
element table as an association list from element id to `connectivity_idx`;
`connectivity` is the flat per-element node list; `nodes_index` is the node
id index of `nodes_df` in row order. -/

structure MGroup where
  elements : Option (List ℕ)
  nodes : Option (List ℕ)
  deriving DecidableEq

structure Mesh where
  groups : List (String × MGroup)
  el_df : List (ℕ × ℕ)
  connectivity : List (List ℕ)
  nodes_index : List ℕ
  deriving DecidableEq

/-- Insertion into a sorted list (helper for `npUnique`). -/
def insertSorted (a : ℕ) : List ℕ → List ℕ
  | [] => [a]
  | b :: l => if a ≤ b then a :: b :: l else b :: insertSorted a l

/-- Insertion sort (helper for `npUnique`). -/
def sortNat : List ℕ → List ℕ
  | [] => []
  | a :: l => insertSorted a (sortNat l)

/-- `np.unique`: the sorted list of distinct values. -/
def npUnique (l : List ℕ) : List ℕ :=
  (sortNat l).dedup

/-- Error-propagating map: Python evaluates the body element by element and
the first raised exception aborts the whole expression. -/
def exMap {α β : Type} (f : α → Except PyErr β) : List α → Except PyErr (List β)
  | [] => .ok []
  | a :: l =>
      match f a with
      | .error e => .error e
      | .ok b => (exMap f l).map (fun bs => b :: bs)

/-- `self.groups[group]` (raises `KeyError` on an unknown name). -/
def Mesh.groupsGet (m : Mesh) (g : String) : Except PyErr MGroup :=
  match m.groups.lookup g with
  | some grp => .ok grp
  | none => .error .keyError

/-- `self.el_df.loc[eid, 'connectivity_idx']` for a single element id. -/
def Mesh.elDfLoc (m : Mesh) (eid : ℕ) : Except PyErr ℕ :=
  match m.el_df.lookup eid with
  | some c => .ok c
  | none => .error .keyError

/-- The element-id accumulation loop shared by `get_elementidxs_by_groups`
and `get_elementids_by_groups` (`elementids.extend(self.groups[group]
['elements'])`): an unknown name raises `KeyError`; a group whose
`'elements'` entry is `None` raises `TypeError` (`list.extend(None)`). -/
def Mesh.collectElements (m : Mesh) : List String → Except PyErr (List ℕ)
  | [] => .ok []
  | g :: gs =>
      match m.groupsGet g with
      | .error e => .error e
      | .ok grp =>
          match grp.elements with
          | none => .error .typeError
          | some l => (m.collectElements gs).map (fun rest => l ++ rest)

/-- `Mesh.get_elementidxs_by_groups` (lines 178-196). -/
def Mesh.get_elementidxs_by_groups (m : Mesh) (groups : List String) :
    Except PyErr (List ℕ) :=
  match m.collectElements groups with
  | .error e => .error e
  | .ok ids => exMap m.elDfLoc (npUnique ids)

/-- `Mesh.get_elementids_by_groups` (lines 198-216). -/
def Mesh.get_elementids_by_groups (m : Mesh) (groups : List String) :
    Except PyErr (List ℕ) :=
  (m.collectElements groups).map npUnique

/-- The accumulation loop of `get_nodeidxs_by_groups` (lines 262-268):
node ids and element ids of the listed groups, skipping `None` entries. -/
def Mesh.collectNodesElements (m : Mesh) :
    List String → Except PyErr (List ℕ × List ℕ)
  | [] => .ok ([], [])
  | g :: gs =>
      match m.groupsGet g with
      | .error e => .error e
      | .ok grp =>
          (m.collectNodesElements gs).map
            (fun r => (grp.nodes.getD [] ++ r.1, grp.elements.getD [] ++ r.2))

/-- Position of the first occurrence of a value in a list. -/
def firstIndex (a : ℕ) : List ℕ → Option ℕ
  | [] => none
  | b :: l => if b = a then some 0 else (firstIndex a l).map (· + 1)

/-- `self.nodes_df.index.get_loc(nodeid)`. -/
def Mesh.getLoc (m : Mesh) (nid : ℕ) : Except PyErr ℕ :=
  match firstIndex nid m.nodes_index with
  | some i => .ok i
  | none => .error .keyError

/-- `self.connectivity[idx]` (raises `IndexError` when out of range). -/
def Mesh.connectivityAt (m : Mesh) (c : ℕ) : Except PyErr (List ℕ) :=
  match m.connectivity.get? c with
  | some a => .ok a
  | none => .error .indexError

/-- `Mesh.get_nodeidxs_by_groups` (lines 248-275).  The node ids referenced
through elements are gathered by `np.hstack` over a generator of the
elements' connectivity rows: when the listed groups contribute no element at
all the generator is empty and `np.hstack` raises
`ValueError: need at least one array to concatenate`. -/
def Mesh.get_nodeidxs_by_groups (m : Mesh) (groups : List String) :
    Except PyErr (List ℕ) :=
  match m.collectNodesElements groups with
  | .error e => .error e
  | .ok (nodeids, elementids) =>
      match exMap m.elDfLoc elementids with
      | .error e => .error e
      | .ok cidxs =>
          match exMap m.connectivityAt cidxs with
          | .error e => .error e
          | .ok arrs =>
              if arrs.isEmpty then .error .valueError
              else
                let fromElements := npUnique arrs.flatten
                let nodes := npUnique (nodeids ++ fromElements)
                exMap m.getLoc nodes

/-- Specification-side description of "the element ids of those groups":
`x` is listed in the `'elements'` entry of some group named in `gs`. -/
def memGroupElements (m : Mesh) (gs : List String) (x : ℕ) : Prop :=
  ∃ g ∈ gs, ∃ grp, m.groups.lookup g = some grp ∧ x ∈ grp.elements.getD []

/-- `x` is listed in the `'nodes'` entry of some group named in `gs`. -/
def memGroupNodes (m : Mesh) (gs : List String) (x : ℕ) : Prop :=
  ∃ g ∈ gs, ∃ grp, m.groups.lookup g = some grp ∧ x ∈ grp.nodes.getD []

/-- `y` is a node id referenced through the connectivity row of an element
belonging to one of the listed groups. -/
def elementNodeIds (m : Mesh) (gs : List String) (y : ℕ) : Prop :=
  ∃ eid c row, memGroupElements m gs eid ∧ m.el_df.lookup eid = some c
    ∧ m.connectivity.get? c = some row ∧ y ∈ row

/-! ## Concrete instances used by the witnesses -/

/-- A one-DOF assembler with distinguishable constant outputs. -/
def asmW : Assembly 1 1 where
  assemble_m := fun _ _ _ _ => 2
  assemble_k_and_f := fun _ _ => (fun _ _ => 3, fun _ => 5)
  assemble_k_and_f_neumann := fun _ _ => (fun _ _ => 7, fun _ => 11)
  assemble_k_f_S_E :=
    fun _ _ => (fun _ _ => 3, fun _ => 5, fun _ _ => 13, fun _ _ => 17)
  assemble_k_and_f_red := fun _ _ _ => (fun _ _ => 19, fun _ => 23)

/-- A one-DOF B-matrix (no Dirichlet elimination). -/
def BW : Matrix (Fin 1) (Fin 1) ℚ := 1

/-- A freshly constructed full system (all caches unset). -/
def msFresh : MechState 1 1 1 where
  stress_recovery := false
  T_output := []
  u_output := []
  S_output := []
  E_output := []
  stress := none
  strain := none
  M_constr := none
  D_constr := none

/-- A full system with populated mass and damping caches. -/
def msCached : MechState 1 1 1 :=
  { msFresh with M_constr := some (fun _ _ => 42),
                 D_constr := some (fun _ _ => 9) }

/-- A reduced system with the indirect assembly selector. -/
def rsW : RedState 1 1 1 1 where
  stress_recovery := false
  T_output := []
  u_output := []
  S_output := []
  E_output := []
  stress := none
  strain := none
  M_constr := none
  D_constr := none
  V := 1
  V_unconstr := 1
  assembly_type := "indirect"
  u_red_output := []

/-- A reduced system with an unknown assembly selector. -/
def rsBad : RedState 1 1 1 1 :=
  { rsW with assembly_type := "frobnicate" }

/-- A state-space system. -/
def ssW : SSState 1 1 1 where
  mech := msFresh
  R_constr := 1
  E_constr := none
  x_output := []

/-- A store holding one full system. -/
def storeFull : List (PObj 1 1 1 1) := [PObj.full msFresh]

/-- A store holding one state-space system. -/
def storeSS : List (PObj 1 1 1 1) := [PObj.ss ssW]

/-- Mesh with a node-only group: the group `"g"` exists but references no
element, so the element-wise `np.hstack` in `get_nodeidxs_by_groups` runs
over an empty generator. -/
def meshCex : Mesh where
  groups := [("g", { elements := some [], nodes := some [5] })]
  el_df := []
  connectivity := []
  nodes_index := [5]

/-- A well-formed two-group mesh. -/
def meshW : Mesh where
  groups := [("a", { elements := some [1, 2], nodes := some [] }),
             ("b", { elements := some [2], nodes := none })]
  el_df := [(1, 0), (2, 1)]
  connectivity := [[4], [5]]
  nodes_index := [4, 5]

/-! ## Shared helper lemmas -/

theorem get?_append_single {α : Type} (l : List α) (v : α) (i : ℕ) :
    (l ++ [v]).get? i = l.get? i ∨ (l ++ [v]).get? i = some v := by
  induction l generalizing i with
  | nil => cases i <;> simp
  | cons a l ih =>
      cases i with
      | zero => simp
      | succ j => simpa using ih j

theorem get?_set_or {α : Type} (l : List α) (r : ℕ) (v : α) (i : ℕ) :
    (l.set r v).get? i = l.get? i ∨ (l.set r v).get? i = some v := by
  induction l generalizing r i with
  | nil => simp
  | cons a l ih =>
      cases r with
      | zero => cases i <;> simp
      | succ r' =>
          cases i with
          | zero => simp
          | succ j => simpa using ih r' j

theorem get?_set_self {α : Type} (l : List α) (r : ℕ) (v : α)
    (h : r < l.length) : (l.set r v).get? r = some v := by
  induction l generalizing r with
  | nil => simp at h
  | cons a l ih =>
      cases r with
      | zero => simp
      | succ r' => simpa using ih r' (by simpa using h)

theorem get?_set_of_ne {α : Type} (l : List α) (r : ℕ) (v : α) (i : ℕ)
    (h : i ≠ r) : (l.set r v).get? i = l.get? i := by
  induction l generalizing r i with
  | nil => simp
  | cons a l ih =>
      cases r with
      | zero => cases i with
          | zero => exact absurd rfl h
          | succ j => simp
      | succ r' =>
          cases i with
          | zero => simp
          | succ j => simpa using ih r' j (fun hc => h (by simp [hc]))

theorem get?_append_length {α : Type} (l : List α) (v : α) :
    (l ++ [v]).get? l.length = some v := by
  induction l with
  | nil => simp
  | cons a l ih => simp [ih]

theorem get?_append_of_lt {α : Type} (l : List α) (v : α) (i : ℕ)
    (h : i < l.length) : (l ++ [v]).get? i = l.get? i := by
  induction l generalizing i with
  | nil => simp at h
  | cons a l ih =>
      cases i with
      | zero => simp
      | succ j => simpa using ih j (by simpa using h)

theorem mem_insertSorted (a x : ℕ) (l : List ℕ) :
    x ∈ insertSorted a l ↔ x = a ∨ x ∈ l := by
  induction l with
  | nil => simp [insertSorted]
  | cons b l ih =>
      by_cases h : a ≤ b
      · simp [insertSorted, h]
      · simp [insertSorted, h, ih]
        tauto

theorem mem_sortNat (x : ℕ) (l : List ℕ) : x ∈ sortNat l ↔ x ∈ l := by
  induction l with
  | nil => simp [sortNat]
  | cons a l ih => simp [sortNat, mem_insertSorted, ih]

theorem mem_npUnique (x : ℕ) (l : List ℕ) : x ∈ npUnique l ↔ x ∈ l := by
  simp [npUnique, List.mem_dedup, mem_sortNat]

theorem exMap_ok_of_forall {α β : Type} (f : α → Except PyErr β) (l : List α)
    (h : ∀ a ∈ l, ∃ b, f a = .ok b) :
    ∃ out, exMap f l = .ok out ∧ ∀ y, y ∈ out ↔ ∃ a ∈ l, f a = .ok y := by
  induction l with
  | nil => exact ⟨[], rfl, by simp⟩
  | cons a l ih =>
      obtain ⟨b, hb⟩ := h a (List.mem_cons_self a l)
      obtain ⟨out, hout, hmem⟩ := ih (fun a' ha' => h a' (List.mem_cons_of_mem a ha'))
      refine ⟨b :: out, ?_, ?_⟩
      · simp [exMap, hb, hout, Except.map]
      · intro y
        simp only [List.mem_cons, hmem]
        constructor
        · rintro (rfl | ⟨a', ha', hfa⟩)
          · exact ⟨a, Or.inl rfl, hb⟩
          · exact ⟨a', Or.inr ha', hfa⟩
        · rintro ⟨a', (rfl | ha'), hfa⟩
          · left; rw [hb] at hfa; cases hfa; rfl
          · right; exact ⟨a', ha', hfa⟩

theorem elDfLoc_ok_iff (m : Mesh) (a b : ℕ) :
    m.elDfLoc a = .ok b ↔ m.el_df.lookup a = some b := by
  unfold Mesh.elDfLoc
  rcases h : m.el_df.lookup a with - | c <;> simp

theorem connectivityAt_ok_iff (m : Mesh) (c : ℕ) (row : List ℕ) :
    m.connectivityAt c = .ok row ↔ m.connectivity.get? c = some row := by
  unfold Mesh.connectivityAt
  rcases h : m.connectivity.get? c with - | r <;> simp

theorem getLoc_ok_iff (m : Mesh) (y i : ℕ) :
    m.getLoc y = .ok i ↔ firstIndex y m.nodes_index = some i := by
  unfold Mesh.getLoc
  rcases h : firstIndex y m.nodes_index with - | j <;> simp

theorem firstIndex_isSome_of_mem (a : ℕ) (l : List ℕ) (h : a ∈ l) :
    ∃ i, firstIndex a l = some i := by
  induction l with
  | nil => cases h
  | cons b l ih =>
      by_cases hb : b = a
      · exact ⟨0, by simp [firstIndex, hb]⟩
      · rcases List.mem_cons.mp h with rfl | hmem
        · exact absurd rfl hb
        · obtain ⟨i, hi⟩ := ih hmem
          exact ⟨i + 1, by simp [firstIndex, hb, hi]⟩

theorem collectElements_error (m : Mesh) (gs : List String)
    (hbad : ∃ g ∈ gs, m.groups.lookup g = none) :
    ∃ e, m.collectElements gs = .error e := by
  induction gs with
  | nil => simp at hbad
  | cons g gs ih =>
      rcases hlook : m.groups.lookup g with - | grp
      · exact ⟨.keyError, by simp [Mesh.collectElements, Mesh.groupsGet, hlook]⟩
      · rcases hel : grp.elements with - | l
        · exact ⟨.typeError,
            by simp [Mesh.collectElements, Mesh.groupsGet, hlook, hel]⟩
        · have hbad' : ∃ g' ∈ gs, m.groups.lookup g' = none := by
            rcases hbad with ⟨g', hg', hnone⟩
            rcases List.mem_cons.mp hg' with rfl | hmem
            · rw [hlook] at hnone; cases hnone
            · exact ⟨g', hmem, hnone⟩
          obtain ⟨e, he⟩ := ih hbad'
          exact ⟨e, by simp [Mesh.collectElements, Mesh.groupsGet, hlook, hel,
            he, Except.map]⟩

theorem collectNodesElements_error (m : Mesh) (gs : List String)
    (hbad : ∃ g ∈ gs, m.groups.lookup g = none) :
    ∃ e, m.collectNodesElements gs = .error e := by
  induction gs with
  | nil => simp at hbad
  | cons g gs ih =>
      rcases hlook : m.groups.lookup g with - | grp
      · exact ⟨.keyError,
        by simp [Mesh.collectNodesElements, Mesh.groupsGet, hlook]⟩
      · have hbad' : ∃ g' ∈ gs, m.groups.lookup g' = none := by
          rcases hbad with ⟨g', hg', hnone⟩
          rcases List.mem_cons.mp hg' with rfl | hmem
          · rw [hlook] at hnone; cases hnone
          · exact ⟨g', hmem, hnone⟩
        obtain ⟨e, he⟩ := ih hbad'
        exact ⟨e, by simp [Mesh.collectNodesElements, Mesh.groupsGet, hlook,
          he, Except.map]⟩

theorem collectElements_ok (m : Mesh) (gs : List String)
    (hall : ∀ g ∈ gs, ∃ grp l,
      m.groups.lookup g = some grp ∧ grp.elements = some l) :
    ∃ ids, m.collectElements gs = .ok ids
      ∧ ∀ x, x ∈ ids ↔ memGroupElements m gs x := by
  induction gs with
  | nil => exact ⟨[], rfl, by simp [memGroupElements]⟩
  | cons g gs ih =>
      obtain ⟨grp, l, hlook, hel⟩ := hall g (List.mem_cons_self g gs)
      obtain ⟨ids, hids, hmem⟩ :=
        ih (fun g' h' => hall g' (List.mem_cons_of_mem _ h'))
      refine ⟨l ++ ids, ?_, ?_⟩
      · simp [Mesh.collectElements, Mesh.groupsGet, hlook, hel, hids,
          Except.map]
      · intro x
        constructor
        · intro h'
          rcases List.mem_append.mp h' with hx | hx
          · exact ⟨g, List.mem_cons_self g gs, grp, hlook, by simp [hel, hx]⟩
          · obtain ⟨g', hg', grp', hl', hx'⟩ := (hmem x).mp hx
            exact ⟨g', List.mem_cons_of_mem _ hg', grp', hl', hx'⟩
        · rintro ⟨g', hg', grp', hl', hx⟩
          rcases List.mem_cons.mp hg' with rfl | hmem'
          · rw [hlook] at hl'; cases hl'
            exact List.mem_append.mpr (Or.inl (by simpa [hel] using hx))
          · exact List.mem_append.mpr
              (Or.inr ((hmem x).mpr ⟨g', hmem', grp', hl', hx⟩))

theorem collectNodesElements_ok (m : Mesh) (gs : List String)
    (hall : ∀ g ∈ gs, (m.groups.lookup g).isSome) :
    ∃ p, m.collectNodesElements gs = .ok p
      ∧ (∀ x, x ∈ p.1 ↔ memGroupNodes m gs x)
      ∧ (∀ x, x ∈ p.2 ↔ memGroupElements m gs x) := by
  induction gs with
  | nil =>
      exact ⟨([], []), rfl, by simp [memGroupNodes], by simp [memGroupElements]⟩
  | cons g gs ih =>
      have hg := hall g (List.mem_cons_self g gs)
      rcases hlook : m.groups.lookup g with - | grp
      · rw [hlook] at hg; cases hg
      · obtain ⟨⟨ns, es⟩, hok, hn, he⟩ :=
          ih (fun g' h' => hall g' (List.mem_cons_of_mem _ h'))
        refine ⟨(grp.nodes.getD [] ++ ns, grp.elements.getD [] ++ es),
          ?_, ?_, ?_⟩
        · simp [Mesh.collectNodesElements, Mesh.groupsGet, hlook, hok,
            Except.map]
        · intro x
          constructor
          · intro h'
            rcases List.mem_append.mp h' with hx | hx
            · exact ⟨g, List.mem_cons_self g gs, grp, hlook, hx⟩
            · obtain ⟨g', hg', grp', hl', hx'⟩ := (hn x).mp hx
              exact ⟨g', List.mem_cons_of_mem _ hg', grp', hl', hx'⟩
          · rintro ⟨g', hg', grp', hl', hx⟩
            rcases List.mem_cons.mp hg' with rfl | hmem'
            · rw [hlook] at hl'; cases hl'
              exact List.mem_append.mpr (Or.inl hx)
            · exact List.mem_append.mpr
                (Or.inr ((hn x).mpr ⟨g', hmem', grp', hl', hx⟩))
        · intro x
          constructor
          · intro h'
            rcases List.mem_append.mp h' with hx | hx
            · exact ⟨g, List.mem_cons_self g gs, grp, hlook, hx⟩
            · obtain ⟨g', hg', grp', hl', hx'⟩ := (he x).mp hx
              exact ⟨g', List.mem_cons_of_mem _ hg', grp', hl', hx'⟩
          · rintro ⟨g', hg', grp', hl', hx⟩
            rcases List.mem_cons.mp hg' with rfl | hmem'
            · rw [hlook] at hl'; cases hl'
              exact List.mem_append.mpr (Or.inl hx)
            · exact List.mem_append.mpr
                (Or.inr ((he x).mpr ⟨g', hmem', grp', hl', hx⟩))

/-! ## Claims -/

/-- Claim C1: for every `ReducedSystem` with attached basis `V` and
`assembly_type` `'indirect'`, and every reduced state `q` and time `t`:
`K_and_f(q, t)` returns `K_red = V_unconstrᵗ · K_unconstr(V_unconstr·q, t) ·
V_unconstr` and `f_red = V_unconstrᵗ · f_unconstr(V_unconstr·q, t)`; `M()`
returns `Vᵗ · M_full · V` (stated for a system whose mass cache is either
still unset or already holds that projected matrix, as after
`reduce_mechanical_system`); and `f_ext(q, du, t)` returns
`Vᵗ · f_ext_full(V·q, du, t)`. -/
theorem claim_C1 {N n k nn : ℕ} {δ : Type} (asm : Assembly N nn)
    (B : Matrix (Fin N) (Fin n) ℚ) (s : RedState N n k nn)
    (hA : s.assembly_type = "indirect")
    (hM : s.M_constr = none ∨
      s.M_constr = some (s.V.transpose *
        constrain_matrix B (asm.assemble_m none 0) * s.V))
    (q : Fin k → ℚ) (du : δ) (t : ℚ) :
    s.K_and_f asm (some q) t =
      .ok (s.V_unconstr.transpose *
             (asm.assemble_k_and_f (s.V_unconstr.mulVec q) t).1 * s.V_unconstr,
           s.V_unconstr.transpose.mulVec
             (asm.assemble_k_and_f (s.V_unconstr.mulVec q) t).2)
    ∧ (s.M asm B none 0 false).1 =
        s.V.transpose * constrain_matrix B (asm.assemble_m none 0) * s.V
    ∧ s.f_ext asm B q du t =
        s.V.transpose.mulVec (full_f_ext asm B (some (s.V.mulVec q)) du t) := by
  refine ⟨?_, ?_, rfl⟩
  · rw [RedState.K_and_f, hA]
    rw [if_neg (by decide), if_pos rfl]
    rfl
  · rcases hM with h | h <;> simp [RedState.M, h]

/-- Claim C2: converting a `MechanicalSystem` (with a still-unset mass cache)
to a `ReducedSystem` with `V` the identity matrix via
`reduce_mechanical_system` yields a system whose `M()`, `K(u, t)` and
`f_int(u, t)` return the same values as the full system's, for every state
`u` and time `t`. -/
theorem claim_C2 {N n nn : ℕ} (asm : Assembly N nn)
    (B : Matrix (Fin N) (Fin n) ℚ) (s : MechState N n nn)
    (hM : s.M_constr = none) (u : Fin n → ℚ) (t : ℚ) :
    ((reduce_transform asm B s (1 : Matrix (Fin n) (Fin n) ℚ)
        "indirect").M asm B none 0 false).1 = (s.M asm B none 0 false).1
    ∧ (reduce_transform asm B s 1 "indirect").K asm (some u) t =
        .ok (s.K asm B (some u) t)
    ∧ (reduce_transform asm B s 1 "indirect").f_int asm u t =
        .ok (s.f_int asm B u t) := by
  have hVu : (reduce_transform asm B s (1 : Matrix (Fin n) (Fin n) ℚ)
      "indirect").V_unconstr = B := Matrix.mul_one B
  refine ⟨?_, ?_, ?_⟩
  · show (1 : Matrix (Fin n) (Fin n) ℚ).transpose *
        constrain_matrix B (asm.assemble_m none 0) * 1 = _
    rw [Matrix.transpose_one, Matrix.one_mul, Matrix.mul_one]
    simp [MechState.M, hM]
  · rw [RedState.K]
    rw [show (reduce_transform asm B s (1 : Matrix (Fin n) (Fin n) ℚ)
      "indirect").assembly_type = "indirect" from rfl]
    rw [if_neg (by decide), if_pos rfl, hVu]
    rfl
  · rw [RedState.f_int]
    rw [show (reduce_transform asm B s (1 : Matrix (Fin n) (Fin n) ℚ)
      "indirect").assembly_type = "indirect" from rfl]
    rw [if_neg (by decide), if_pos rfl, hVu]
    rfl

/-- Claim C3: once `M_constr` is cached, `M(u, t, force_update=False)`
returns the cached matrix and leaves the instance untouched for every `u`
and `t`, while `M(u, t, force_update=True)` reassembles and replaces the
cache; symmetrically, once `D_constr` is cached, `D(u, t, force_update)`
returns the cached matrix and never reassembles (so in particular a
recomputation could only be asked for through `force_update=True`). -/
theorem claim_C3 {N n nn : ℕ} (asm : Assembly N nn)
    (B : Matrix (Fin N) (Fin n) ℚ) (s : MechState N n nn)
    (C Cd : Matrix (Fin n) (Fin n) ℚ)
    (hM : s.M_constr = some C) (hD : s.D_constr = some Cd)
    (u : Option (Fin n → ℚ)) (t : ℚ) (b : Bool) :
    s.M asm B u t false = (C, s)
    ∧ (s.M asm B u t true).1 =
        constrain_matrix B (asm.assemble_m (u.map (unconstrain_vec B)) t)
    ∧ (s.M asm B u t true).2 =
        { s with M_constr := some (constrain_matrix B (asm.assemble_m (u.map (unconstrain_vec B)) t)) }
    ∧ s.D asm B u t b = (Cd, s) := by
  refine ⟨?_, ?_, ?_, ?_⟩
  · simp [MechState.M, hM]
  · simp [MechState.M, hM]
  · simp [MechState.M, hM]
  · cases b <;> simp [MechState.D, hD]

/-- Claim C4: on a `ReducedSystem` whose `assembly_type` is neither
`'direct'` nor `'indirect'`, each of `K_and_f`, `K` and `f_int` raises
`ValueError` and produces no result. -/
theorem claim_C4 {N n k nn : ℕ} (asm : Assembly N nn)
    (s : RedState N n k nn)
    (h1 : s.assembly_type ≠ "direct") (h2 : s.assembly_type ≠ "indirect")
    (u : Option (Fin k → ℚ)) (u2 : Fin k → ℚ) (t : ℚ) :
    s.K_and_f asm u t = .error .valueError
    ∧ s.K asm u t = .error .valueError
    ∧ s.f_int asm u2 t = .error .valueError := by
  refine ⟨?_, ?_, ?_⟩ <;>
    simp [RedState.K_and_f, RedState.K, RedState.f_int, h1, h2]

/-- Claim C5: `reduce_mechanical_system(sys, V, overwrite=False)` builds the
`ReducedSystem` out of a deep copy, leaving the passed-in instance (its class
tag, caches and output lists) unchanged; with `overwrite=True` the very same
store slot is converted in place to the reduced variant; and none of the
conversion operations ever stores a `Full`-tagged system, so no path leads
from a reduced instance back to a Full one. -/
theorem claim_C5 {N n k nn : ℕ} (asm : Assembly N nn)
    (B : Matrix (Fin N) (Fin n) ℚ) (store : List (PObj N n k nn)) (ref : ℕ)
    (s : MechState N n nn) (h : store.get? ref = some (.full s))
    (V : Matrix (Fin n) (Fin k) ℚ) (assembly : String) :
    ((reduce_mechanical_system asm B store ref V false assembly).2.get? ref
        = some (.full s)
      ∧ (reduce_mechanical_system asm B store ref V false assembly).1
        = store.length
      ∧ (reduce_mechanical_system asm B store ref V false assembly).2.get?
          store.length = some (.red (reduce_transform asm B s V assembly)))
    ∧ reduce_mechanical_system asm B store ref V true assembly
        = (ref, store.set ref (.red (reduce_transform asm B s V assembly)))
    ∧ (∀ (st : List (PObj N n k nn)) (r : ℕ)
        (V' : Matrix (Fin n) (Fin k) ℚ) (ow : Bool) (a : String) (i : ℕ),
        (reduce_mechanical_system asm B st r V' ow a).2.get? i = st.get? i
        ∨ ∃ o, (reduce_mechanical_system asm B st r V' ow a).2.get? i = some o
            ∧ o.isFull = false)
    ∧ (∀ (st : List (PObj N n k nn)) (r : ℕ)
        (R : Option (Matrix (Fin n) (Fin n) ℚ)) (ow : Bool) (i : ℕ),
        (convert_mechanical_system_to_state_space asm B st r R ow).2.get? i
          = st.get? i
        ∨ ∃ o, (convert_mechanical_system_to_state_space asm B st r R
            ow).2.get? i = some o ∧ o.isFull = false)
    ∧ (∀ (st : List (PObj N n k nn)) (r : ℕ)
        (rb : Matrix (Fin (n + n)) (Fin k) ℚ)
        (lb : Option (Matrix (Fin (n + n)) (Fin k) ℚ)) (ow : Bool) (i : ℕ),
        (reduce_mechanical_system_state_space st r rb lb ow).2.get? i
          = st.get? i
        ∨ ∃ o, (reduce_mechanical_system_state_space st r rb lb ow).2.get? i
            = some o ∧ o.isFull = false) := by
  have href : ref < store.length := by
    rcases List.get?_eq_some.mp h with ⟨hlt, -⟩
    exact hlt
  refine ⟨⟨?_, ?_, ?_⟩, ?_, ?_, ?_, ?_⟩
  · unfold reduce_mechanical_system
    rw [h]
    exact (get?_append_of_lt _ _ _ href).trans h
  · unfold reduce_mechanical_system
    rw [h]
    rfl
  · unfold reduce_mechanical_system
    rw [h]
    exact get?_append_length _ _
  · unfold reduce_mechanical_system
    rw [h]
    rfl
  · intro st r V' ow a i
    unfold reduce_mechanical_system
    rcases hget : st.get? r with - | o
    · left; rfl
    · cases o with
      | full s' =>
          cases ow
          · rcases get?_append_single st
              (.red (reduce_transform asm B s' V' a)) i with h' | h'
            · exact Or.inl h'
            · exact Or.inr ⟨_, h', rfl⟩
          · rcases get?_set_or st r
              (.red (reduce_transform asm B s' V' a)) i with h' | h'
            · exact Or.inl h'
            · exact Or.inr ⟨_, h', rfl⟩
      | red s' => left; rfl
      | ss s' => left; rfl
      | redss s' => left; rfl
  · intro st r R ow i
    unfold convert_mechanical_system_to_state_space
    rcases hget : st.get? r with - | o
    · left; rfl
    · cases o with
      | full s' =>
          cases ow
          · rcases get?_append_single st _ i with h' | h'
            · exact Or.inl h'
            · exact Or.inr ⟨_, h', rfl⟩
          · rcases get?_set_or st r _ i with h' | h'
            · exact Or.inl h'
            · exact Or.inr ⟨_, h', rfl⟩
      | red s' => left; rfl
      | ss s' => left; rfl
      | redss s' => left; rfl
  · intro st r rb lb ow i
    unfold reduce_mechanical_system_state_space
    rcases hget : st.get? r with - | o
    · left; rfl
    · cases o with
      | ss s' =>
          cases lb with
          | some L =>
              cases ow
              · left; rfl
              · rcases get?_set_or st r _ i with h' | h'
                · exact Or.inl h'
                · exact Or.inr ⟨_, h', rfl⟩
          | none =>
              cases ow
              · rcases get?_append_single st _ i with h' | h'
                · exact Or.inl h'
                · exact Or.inr ⟨_, h', rfl⟩
              · rcases get?_set_or st r _ i with h' | h'
                · exact Or.inl h'
                · exact Or.inr ⟨_, h', rfl⟩
      | full s' => left; rfl
      | red s' => left; rfl
      | redss s' => left; rfl

/-- Claim C6: `MechanicalSystem.write_timestep(t, u)` appends exactly one
entry `t` to `T_output` and exactly one entry `unconstrain_vec(u)` to
`u_output`, preserving `len(T_output) == len(u_output)`; on a
`ReducedSystem`, `write_timestep(t, q)` appends `unconstrain_vec(V·q)` to
`u_output` and a copy of the reduced coordinate `q` to `u_red_output`
(stated under the invariant that the stress and strain attributes are absent
or present together, which every source mutation of them maintains). -/
theorem claim_C6 {N n k nn : ℕ} (B : Matrix (Fin N) (Fin n) ℚ)
    (s : MechState N n nn) (r : RedState N n k nn) (t t' : ℚ)
    (u : Fin n → ℚ) (q : Fin k → ℚ)
    (hlen : s.T_output.length = s.u_output.length)
    (hss : r.stress.isNone = r.strain.isNone) :
    ((s.write_timestep B t u).1.T_output = s.T_output ++ [t]
      ∧ (s.write_timestep B t u).1.u_output
          = s.u_output ++ [unconstrain_vec B u]
      ∧ (s.write_timestep B t u).1.T_output.length
          = (s.write_timestep B t u).1.u_output.length)
    ∧ ((r.write_timestep B t' q).1.T_output = r.T_output ++ [t']
      ∧ (r.write_timestep B t' q).1.u_output
          = r.u_output ++ [unconstrain_vec B (r.V.mulVec q)]
      ∧ (r.write_timestep B t' q).1.u_red_output
          = r.u_red_output ++ [q]) := by
  constructor
  · cases hsr : s.stress_recovery <;>
      cases hst : s.stress <;> cases hsn : s.strain <;>
        simp [MechState.write_timestep, hsr, hst, hsn, hlen]
  · cases hsr : r.stress_recovery <;>
      cases hst : r.stress <;> cases hsn : r.strain <;>
        simp_all [RedState.write_timestep]

/-- Claim C8: while `D_constr` is `None`, every call `D(u, t)` returns the
zero matrix `K()*0` without ever storing it; after
`apply_rayleigh_damping(alpha, beta)`, `D()` returns the cached matrix
`alpha*M() + beta*K(0)`. -/
theorem claim_C8 {N n nn : ℕ} (asm : Assembly N nn)
    (B : Matrix (Fin N) (Fin n) ℚ) (s : MechState N n nn)
    (hD : s.D_constr = none) (u u2 : Option (Fin n → ℚ)) (t t2 : ℚ)
    (b b2 : Bool) (α β : ℚ) :
    s.D asm B u t b = (0, s)
    ∧ (s.apply_rayleigh_damping asm B α β).D_constr
        = some (α • (s.M asm B none 0 false).1 + β • s.K asm B (some 0) 0)
    ∧ ((s.apply_rayleigh_damping asm B α β).D asm B u2 t2 b2).1
        = α • (s.M asm B none 0 false).1 + β • s.K asm B (some 0) 0 := by
  refine ⟨?_, rfl, ?_⟩
  · simp [MechState.D, hD]
  · cases b2 <;>
      simp [MechState.D, MechState.apply_rayleigh_damping, MechState.K]

/-- Claim C9: `reduce_mechanical_system_state_space` with a non-`None`
`left_basis` always raises an `AttributeError` (the left-basis branch calls
the nonexistent ndarray method `sopy`) and never returns a reduced system;
with `left_basis=None` it succeeds and the produced system's left basis `W`
is a copy of `right_basis`. -/
theorem claim_C9 {N n k nn : ℕ} (store : List (PObj N n k nn)) (ref : ℕ)
    (s : SSState N n nn) (h : store.get? ref = some (.ss s))
    (rb : Matrix (Fin (n + n)) (Fin k) ℚ)
    (lb : Matrix (Fin (n + n)) (Fin k) ℚ) (ow : Bool) :
    (reduce_mechanical_system_state_space store ref rb (some lb) ow).1
        = .error .attributeError
    ∧ ∃ (j : ℕ) (d : RedSSState N n k nn),
        (reduce_mechanical_system_state_space store ref rb none ow).1 = .ok j
        ∧ (reduce_mechanical_system_state_space store ref rb none ow).2.get? j
            = some (.redss d)
        ∧ d.W = some rb := by
  have href : ref < store.length := by
    rcases List.get?_eq_some.mp h with ⟨hlt, -⟩
    exact hlt
  constructor
  · unfold reduce_mechanical_system_state_space
    rw [h]
  · cases ow
    · refine ⟨store.length,
        { mech := s.mech, R_constr := s.R_constr, E_constr := none,
          x_output := s.x_output, V := rb, W := some rb,
          x_red_output := some [] }, ?_, ?_, rfl⟩
      · unfold reduce_mechanical_system_state_space
        rw [h]
        rfl
      · unfold reduce_mechanical_system_state_space
        rw [h]
        exact get?_append_length _ _
    · refine ⟨ref,
        { mech := s.mech, R_constr := s.R_constr, E_constr := none,
          x_output := s.x_output, V := rb, W := some rb,
          x_red_output := some [] }, ?_, ?_, rfl⟩
      · unfold reduce_mechanical_system_state_space
        rw [h]
        rfl
      · unfold reduce_mechanical_system_state_space
        rw [h]
        exact get?_set_self _ _ _ href

/-- Claim C10: on an instance with empty recorded history,
`export_paraview` appends a synthetic timestep `t = 0` with an all-zero
unconstrained displacement of length `no_of_dofs` to `T_output`/`u_output`
(and all-zero `(no_of_nodes, 6)` stress and strain arrays to
`S_output`/`E_output` when `stress_recovery` is set) before writing; with a
non-empty history it appends nothing and leaves the instance unchanged. -/
theorem claim_C10 {N n nn : ℕ} (s : MechState N n nn) :
    (s.T_output = [] →
      s.export_paraview.T_output = [0]
      ∧ s.export_paraview.u_output = s.u_output ++ [0]
      ∧ (s.stress_recovery = true →
          s.export_paraview.S_output = s.S_output ++ [0]
          ∧ s.export_paraview.E_output = s.E_output ++ [0])
      ∧ (s.stress_recovery = false →
          s.export_paraview.S_output = s.S_output
          ∧ s.export_paraview.E_output = s.E_output))
    ∧ (s.T_output ≠ [] → s.export_paraview = s) := by
  constructor
  · intro h0
    cases hsr : s.stress_recovery <;>
      simp [MechState.export_paraview, h0, hsr]
  · intro h0
    have : s.T_output.length ≠ 0 := by
      simpa [List.length_eq_zero] using h0
    simp [MechState.export_paraview, this]

/-- Claim C7 counterexample: in the mesh `meshCex` the single queried group
name `"g"` exists (so the claim asserts `get_nodeidxs_by_groups` returns the
row indices of its nodes, here `[0]` for node id `5`), yet the call raises:
the group lists no elements, so the `np.hstack` over the elements'
connectivity rows runs over an empty sequence and raises `ValueError`. -/
theorem claim_C7_counterexample :
    (∀ g ∈ ["g"], (meshCex.groups.lookup g).isSome)
    ∧ meshCex.get_nodeidxs_by_groups ["g"] = .error .valueError
    ∧ meshCex.get_nodeidxs_by_groups ["g"] ≠ .ok [0] := by
  have h1 : meshCex.get_nodeidxs_by_groups ["g"] = .error .valueError := rfl
  refine ⟨by decide, h1, ?_⟩
  rw [h1]
  simp

/-- Claim C7 (amended): a group list containing an unknown name makes each of
`get_elementidxs_by_groups`, `get_elementids_by_groups` and
`get_nodeidxs_by_groups` raise; when every name exists (with a list-valued
`'elements'` entry), the first two return exactly the element
indices/element ids of those groups, and `get_nodeidxs_by_groups` returns
exactly the node row-indices of those groups provided the groups reference
at least one element (with no elements referenced, the `np.hstack` over an
empty sequence raises instead, as the counterexample shows). -/
theorem claim_C7 (m : Mesh) (gs : List String) :
    ((∃ g ∈ gs, m.groups.lookup g = none) →
      (∃ e, m.get_elementidxs_by_groups gs = .error e)
      ∧ (∃ e, m.get_elementids_by_groups gs = .error e)
      ∧ (∃ e, m.get_nodeidxs_by_groups gs = .error e))
    ∧ ((∀ g ∈ gs, ∃ grp l,
          m.groups.lookup g = some grp ∧ grp.elements = some l) →
        (∃ out, m.get_elementids_by_groups gs = .ok out
          ∧ ∀ x, x ∈ out ↔ memGroupElements m gs x)
        ∧ ((∀ x, memGroupElements m gs x → (m.el_df.lookup x).isSome) →
            ∃ out, m.get_elementidxs_by_groups gs = .ok out
              ∧ ∀ y, y ∈ out ↔ ∃ a, memGroupElements m gs a
                  ∧ m.el_df.lookup a = some y))
    ∧ ((∀ g ∈ gs, (m.groups.lookup g).isSome) →
        (∃ x, memGroupElements m gs x) →
        (∀ x, memGroupElements m gs x → (m.el_df.lookup x).isSome) →
        (∀ c x, memGroupElements m gs x → m.el_df.lookup x = some c →
          c < m.connectivity.length) →
        (∀ y, memGroupNodes m gs y ∨ elementNodeIds m gs y →
          y ∈ m.nodes_index) →
        ∃ out, m.get_nodeidxs_by_groups gs = .ok out
          ∧ ∀ i, i ∈ out ↔ ∃ y,
              (memGroupNodes m gs y ∨ elementNodeIds m gs y)
              ∧ firstIndex y m.nodes_index = some i) := by
  refine ⟨?_, ?_, ?_⟩
  · intro hbad
    obtain ⟨e, he⟩ := collectElements_error m gs hbad
    obtain ⟨e2, he2⟩ := collectNodesElements_error m gs hbad
    refine ⟨⟨e, ?_⟩, ⟨e, ?_⟩, ⟨e2, ?_⟩⟩
    · simp [Mesh.get_elementidxs_by_groups, he]
    · simp [Mesh.get_elementids_by_groups, he, Except.map]
    · simp [Mesh.get_nodeidxs_by_groups, he2]
  · intro hall
    obtain ⟨ids, hids, hmem⟩ := collectElements_ok m gs hall
    constructor
    · refine ⟨npUnique ids, ?_, ?_⟩
      · simp [Mesh.get_elementids_by_groups, hids, Except.map]
      · intro x; rw [mem_npUnique]; exact hmem x
    · intro hdf
      have hok : ∀ a ∈ npUnique ids, ∃ b, m.elDfLoc a = .ok b := by
        intro a ha
        have hmem' : memGroupElements m gs a :=
          (hmem a).mp ((mem_npUnique a ids).mp ha)
        rcases Option.isSome_iff_exists.mp (hdf a hmem') with ⟨b, hb⟩
        exact ⟨b, (elDfLoc_ok_iff m a b).mpr hb⟩
      obtain ⟨out, hout, hmo⟩ := exMap_ok_of_forall _ _ hok
      refine ⟨out, ?_, ?_⟩
      · simp [Mesh.get_elementidxs_by_groups, hids, hout]
      · intro y
        rw [hmo y]
        constructor
        · rintro ⟨a, ha, hfa⟩
          exact ⟨a, (hmem a).mp ((mem_npUnique a ids).mp ha),
            (elDfLoc_ok_iff m a y).mp hfa⟩
        · rintro ⟨a, hmem', hla⟩
          exact ⟨a, (mem_npUnique a ids).mpr ((hmem a).mpr hmem'),
            (elDfLoc_ok_iff m a y).mpr hla⟩
  · intro hall hne hdf hconn hnodes
    obtain ⟨⟨ns, es⟩, hok, hn, he⟩ := collectNodesElements_ok m gs hall
    have hok1 : ∀ a ∈ es, ∃ b, m.elDfLoc a = .ok b := by
      intro a ha
      rcases Option.isSome_iff_exists.mp (hdf a ((he a).mp ha)) with ⟨b, hb⟩
      exact ⟨b, (elDfLoc_ok_iff m a b).mpr hb⟩
    obtain ⟨cidxs, hc, hcm⟩ := exMap_ok_of_forall _ _ hok1
    have hok2 : ∀ c ∈ cidxs, ∃ row, m.connectivityAt c = .ok row := by
      intro c hc'
      obtain ⟨eid, heid, hla⟩ := (hcm c).mp hc'
      have hlt : c < m.connectivity.length :=
        hconn c eid ((he eid).mp heid) ((elDfLoc_ok_iff m eid c).mp hla)
      rcases hg : m.connectivity.get? c with - | row
      · exact absurd hlt (by simpa using List.get?_eq_none.mp hg)
      · exact ⟨row, (connectivityAt_ok_iff m c row).mpr hg⟩
    obtain ⟨arrs, ha, ham⟩ := exMap_ok_of_forall _ _ hok2
    obtain ⟨x0, hx0⟩ := hne
    have hx0es : x0 ∈ es := (he x0).mpr hx0
    obtain ⟨c0, hc0⟩ := hok1 x0 hx0es
    have hc0m : c0 ∈ cidxs := (hcm c0).mpr ⟨x0, hx0es, hc0⟩
    obtain ⟨row0, hrow0⟩ := hok2 c0 hc0m
    have hrow0m : row0 ∈ arrs := (ham row0).mpr ⟨c0, hc0m, hrow0⟩
    have hnonempty : arrs.isEmpty = false := by
      cases arrs
      · cases hrow0m
      · rfl
    have hflat : ∀ y, y ∈ arrs.flatten ↔ elementNodeIds m gs y := by
      intro y
      rw [List.mem_flatten]
      constructor
      · rintro ⟨row, hrow, hy⟩
        obtain ⟨c, hcs, hrowok⟩ := (ham row).mp hrow
        obtain ⟨eid, heid, hla⟩ := (hcm c).mp hcs
        exact ⟨eid, c, row, (he eid).mp heid,
          (elDfLoc_ok_iff m eid c).mp hla,
          (connectivityAt_ok_iff m c row).mp hrowok, hy⟩
      · rintro ⟨eid, c, row, hmemE, hla, hg, hy⟩
        have hes : eid ∈ es := (he eid).mpr hmemE
        have hcs : c ∈ cidxs :=
          (hcm c).mpr ⟨eid, hes, (elDfLoc_ok_iff m eid c).mpr hla⟩
        exact ⟨row,
          (ham row).mpr ⟨c, hcs, (connectivityAt_ok_iff m c row).mpr hg⟩, hy⟩
    have hchar : ∀ y, y ∈ npUnique (ns ++ npUnique arrs.flatten) ↔
        (memGroupNodes m gs y ∨ elementNodeIds m gs y) := by
      intro y
      rw [mem_npUnique, List.mem_append, mem_npUnique, hflat, hn]
    have hokL : ∀ y ∈ npUnique (ns ++ npUnique arrs.flatten),
        ∃ i, m.getLoc y = .ok i := by
      intro y hy
      have hin := hnodes y ((hchar y).mp hy)
      obtain ⟨i, hi⟩ := firstIndex_isSome_of_mem y m.nodes_index hin
      exact ⟨i, (getLoc_ok_iff m y i).mpr hi⟩
    obtain ⟨out, hout, hmo⟩ := exMap_ok_of_forall _ _ hokL
    refine ⟨out, ?_, ?_⟩
    · simp [Mesh.get_nodeidxs_by_groups, hok, hc, ha, hnonempty, hout]
    · intro i
      rw [hmo i]
      constructor
      · rintro ⟨y, hy, hgl⟩
        exact ⟨y, (hchar y).mp hy, (getLoc_ok_iff m y i).mp hgl⟩
      · rintro ⟨y, hy, hidx⟩
        exact ⟨y, (hchar y).mpr hy, (getLoc_ok_iff m y i).mpr hidx⟩

/-! ## Witnesses -/

theorem claim_C1_witness :
    (rsW.assembly_type = "indirect" ∧ rsW.M_constr = none)
    ∧ (rsW.K_and_f asmW (some 1) 0 =
        .ok (rsW.V_unconstr.transpose *
               (asmW.assemble_k_and_f (rsW.V_unconstr.mulVec 1) 0).1 *
               rsW.V_unconstr,
             rsW.V_unconstr.transpose.mulVec
               (asmW.assemble_k_and_f (rsW.V_unconstr.mulVec 1) 0).2)
      ∧ (rsW.M asmW BW none 0 false).1 =
          rsW.V.transpose * constrain_matrix BW (asmW.assemble_m none 0) *
            rsW.V
      ∧ rsW.f_ext asmW BW 1 (0 : ℚ) 0 =
          rsW.V.transpose.mulVec
            (full_f_ext asmW BW (some (rsW.V.mulVec 1)) (0 : ℚ) 0)) :=
  ⟨⟨rfl, rfl⟩, claim_C1 asmW BW rsW rfl (Or.inl rfl) 1 (0 : ℚ) 0⟩

theorem claim_C2_witness :
    msFresh.M_constr = none
    ∧ ((reduce_transform asmW BW msFresh (1 : Matrix (Fin 1) (Fin 1) ℚ)
          "indirect").M asmW BW none 0 false).1 =
        (msFresh.M asmW BW none 0 false).1
    ∧ (reduce_transform asmW BW msFresh 1 "indirect").K asmW (some 1) 0 =
        .ok (msFresh.K asmW BW (some 1) 0)
    ∧ (reduce_transform asmW BW msFresh 1 "indirect").f_int asmW 1 0 =
        .ok (msFresh.f_int asmW BW 1 0) :=
  ⟨rfl, claim_C2 asmW BW msFresh rfl 1 0⟩

theorem claim_C3_witness :
    (msCached.M_constr = some (fun _ _ => 42)
      ∧ msCached.D_constr = some (fun _ _ => 9))
    ∧ (msCached.M asmW BW none 0 false = ((fun _ _ => 42), msCached)
      ∧ (msCached.M asmW BW none 0 true).1 =
          constrain_matrix BW
            (asmW.assemble_m (Option.map (unconstrain_vec BW) none) 0)
      ∧ (msCached.M asmW BW none 0 true).2 =
          { msCached with M_constr := some (constrain_matrix BW
              (asmW.assemble_m (Option.map (unconstrain_vec BW) none) 0)) }
      ∧ msCached.D asmW BW none 0 true = ((fun _ _ => 9), msCached)) :=
  ⟨⟨rfl, rfl⟩, claim_C3 asmW BW msCached _ _ rfl rfl none 0 true⟩

theorem claim_C4_witness :
    (rsBad.assembly_type ≠ "direct" ∧ rsBad.assembly_type ≠ "indirect")
    ∧ (rsBad.K_and_f asmW none 0 = .error .valueError
      ∧ rsBad.K asmW none 0 = .error .valueError
      ∧ rsBad.f_int asmW 1 0 = .error .valueError) :=
  ⟨⟨by decide, by decide⟩,
    claim_C4 asmW rsBad (by decide) (by decide) none 1 0⟩

theorem claim_C5_witness :
    storeFull.get? 0 = some (.full msFresh)
    ∧ ((reduce_mechanical_system asmW BW storeFull 0 1 false
          "indirect").2.get? 0 = some (.full msFresh)
      ∧ (reduce_mechanical_system asmW BW storeFull 0 1 false "indirect").1 =
          storeFull.length
      ∧ (reduce_mechanical_system asmW BW storeFull 0 1 false
          "indirect").2.get? storeFull.length =
          some (.red (reduce_transform asmW BW msFresh 1 "indirect")))
    ∧ reduce_mechanical_system asmW BW storeFull 0 1 true "indirect" =
        (0, storeFull.set 0
          (.red (reduce_transform asmW BW msFresh 1 "indirect"))) :=
  ⟨rfl, (claim_C5 asmW BW storeFull 0 msFresh rfl 1 "indirect").1,
    (claim_C5 asmW BW storeFull 0 msFresh rfl 1 "indirect").2.1⟩

theorem claim_C6_witness :
    (msFresh.T_output.length = msFresh.u_output.length
      ∧ rsW.stress.isNone = rsW.strain.isNone)
    ∧ (((msFresh.write_timestep BW 1 1).1.T_output = msFresh.T_output ++ [1]
      ∧ (msFresh.write_timestep BW 1 1).1.u_output =
          msFresh.u_output ++ [unconstrain_vec BW 1]
      ∧ (msFresh.write_timestep BW 1 1).1.T_output.length =
          (msFresh.write_timestep BW 1 1).1.u_output.length)
    ∧ ((rsW.write_timestep BW 2 1).1.T_output = rsW.T_output ++ [2]
      ∧ (rsW.write_timestep BW 2 1).1.u_output =
          rsW.u_output ++ [unconstrain_vec BW (rsW.V.mulVec 1)]
      ∧ (rsW.write_timestep BW 2 1).1.u_red_output =
          rsW.u_red_output ++ [1])) :=
  ⟨⟨rfl, rfl⟩, claim_C6 BW msFresh rsW 1 2 1 1 rfl rfl⟩

theorem claim_C7_witness :
    (∃ e, meshW.get_elementidxs_by_groups ["a", "zz"] = .error e)
    ∧ (∃ out, meshW.get_elementids_by_groups ["a", "b"] = .ok out
        ∧ ∀ x, x ∈ out ↔ memGroupElements meshW ["a", "b"] x)
    ∧ (∃ out, meshW.get_nodeidxs_by_groups ["a", "b"] = .ok out
        ∧ ∀ i, i ∈ out ↔ ∃ y,
            (memGroupNodes meshW ["a", "b"] y
              ∨ elementNodeIds meshW ["a", "b"] y)
            ∧ firstIndex y meshW.nodes_index = some i) := by
  have hmemE : ∀ x, memGroupElements meshW ["a", "b"] x → x = 1 ∨ x = 2 := by
    rintro x ⟨g, hg, grp, hlook, hx⟩
    fin_cases hg
    · rw [show meshW.groups.lookup "a" = some ⟨some [1, 2], some []⟩
        from by decide] at hlook
      cases hlook
      simpa using hx
    · rw [show meshW.groups.lookup "b" = some ⟨some [2], none⟩
        from by decide] at hlook
      cases hlook
      simp at hx
      exact Or.inr hx
  refine ⟨?_, ?_, ?_⟩
  · exact ((claim_C7 meshW ["a", "zz"]).1 ⟨"zz", by decide, by decide⟩).1
  · refine ((claim_C7 meshW ["a", "b"]).2.1 ?_).1
    intro g hg
    fin_cases hg
    · exact ⟨⟨some [1, 2], some []⟩, [1, 2], by decide, rfl⟩
    · exact ⟨⟨some [2], none⟩, [2], by decide, rfl⟩
  · refine (claim_C7 meshW ["a", "b"]).2.2 ?_ ?_ ?_ ?_ ?_
    · intro g hg
      fin_cases hg <;> decide
    · exact ⟨1, "a", by decide, ⟨some [1, 2], some []⟩, by decide, by decide⟩
    · intro x hx
      rcases hmemE x hx with rfl | rfl <;> decide
    · intro c x hx hlk
      rcases hmemE x hx with rfl | rfl
      · rw [show meshW.el_df.lookup 1 = some 0 from by decide] at hlk
        cases hlk; decide
      · rw [show meshW.el_df.lookup 2 = some 1 from by decide] at hlk
        cases hlk; decide
    · intro y hy
      rcases hy with hy | hy
      · rcases hy with ⟨g, hg, grp, hlook, hyy⟩
        fin_cases hg
        · rw [show meshW.groups.lookup "a" = some ⟨some [1, 2], some []⟩
            from by decide] at hlook
          cases hlook
          simp at hyy
        · rw [show meshW.groups.lookup "b" = some ⟨some [2], none⟩
            from by decide] at hlook
          cases hlook
          simp at hyy
      · rcases hy with ⟨eid, c, row, hmE, hlk, hconn, hyy⟩
        rcases hmemE eid hmE with rfl | rfl
        · rw [show meshW.el_df.lookup 1 = some 0 from by decide] at hlk
          cases hlk
          rw [show meshW.connectivity.get? 0 = some [4] from by decide]
            at hconn
          cases hconn
          simp at hyy
          subst hyy
          decide
        · rw [show meshW.el_df.lookup 2 = some 1 from by decide] at hlk
          cases hlk
          rw [show meshW.connectivity.get? 1 = some [5] from by decide]
            at hconn
          cases hconn
          simp at hyy
          subst hyy
          decide

theorem claim_C8_witness :
    msFresh.D_constr = none
    ∧ (msFresh.D asmW BW none 0 false = (0, msFresh)
      ∧ (msFresh.apply_rayleigh_damping asmW BW 2 3).D_constr =
          some ((2 : ℚ) • (msFresh.M asmW BW none 0 false).1 +
            (3 : ℚ) • msFresh.K asmW BW (some 0) 0)
      ∧ ((msFresh.apply_rayleigh_damping asmW BW 2 3).D asmW BW none 0
          false).1 =
          (2 : ℚ) • (msFresh.M asmW BW none 0 false).1 +
            (3 : ℚ) • msFresh.K asmW BW (some 0) 0) :=
  ⟨rfl, claim_C8 asmW BW msFresh rfl none none 0 0 false false 2 3⟩

theorem claim_C9_witness :
    storeSS.get? 0 = some (.ss ssW)
    ∧ ((reduce_mechanical_system_state_space storeSS 0
          (0 : Matrix (Fin (1 + 1)) (Fin 1) ℚ) (some 0) false).1 =
        .error .attributeError
      ∧ ∃ (j : ℕ) (d : RedSSState 1 1 1 1),
          (reduce_mechanical_system_state_space storeSS 0
            (0 : Matrix (Fin (1 + 1)) (Fin 1) ℚ) none false).1 = .ok j
          ∧ (reduce_mechanical_system_state_space storeSS 0
              (0 : Matrix (Fin (1 + 1)) (Fin 1) ℚ) none false).2.get? j =
              some (.redss d)
          ∧ d.W = some 0) :=
  ⟨rfl, claim_C9 storeSS 0 ssW rfl 0 0 false⟩

theorem claim_C10_witness :
    msFresh.export_paraview.T_output = [0]
    ∧ msFresh.export_paraview.u_output = msFresh.u_output ++ [0]
    ∧ (msFresh.stress_recovery = true →
        msFresh.export_paraview.S_output = msFresh.S_output ++ [0]
        ∧ msFresh.export_paraview.E_output = msFresh.E_output ++ [0])
    ∧ (msFresh.stress_recovery = false →
        msFresh.export_paraview.S_output = msFresh.S_output
        ∧ msFresh.export_paraview.E_output = msFresh.E_output) :=
  (claim_C10 msFresh).1 rfl

end AMfe
